import Mathlib

/-!
Verification of the OpenPowerlifting data manager
(`Command Line Program/data_manager.py`, class `OpenPowerliftingDataManager`).

Modelling conventions:
* Python strings are sequences of code points; we embed them as `List Char`
  (abbreviated `Str`).  `str.replace(c, '')` becomes a filter, `str.lower()`
  maps `Char.toLower` (the source data is ASCII), `str.strip()` drops
  whitespace from both ends.
* Python floats are embedded as exact rationals `ℚ`; the numeric claims are
  about the algebraic structure of the score, not about rounding.
* Dates: `datetime.strptime(s, perCent-Y-m-d)` / `pd.to_datetime` are embedded as an
  abstract pure parser `parseDate : Str → Option ℤ` returning the day number
  of the parsed date; "now" is a day number `ℤ` passed explicitly wherever the
  code calls `datetime.now()` / `pd.Timestamp.now()`.
* The pandas dataframe is a `List Row`, one `Row` per CSV line, with the
  numeric columns already holding the result of
  `pd.to_numeric(..., errors='coerce').fillna(0)`.
* Dictionaries keyed by strings (`self._name_index`, batch results) are
  association lists `List (Str × _)`; keys produced by `groupby` are unique,
  so first-match lookup agrees with Python dict lookup.
-/

abbrev Str := List Char

/-! ## Normalizer -/

/-- `s.lower()` (the dataset is ASCII, where `Char.toLower` agrees with
Python `str.lower`). -/
def pyLower (s : Str) : Str := s.map Char.toLower

/-- `s.replace(c, '')`: removing every occurrence of a single character. -/
def removeAll (x : Char) (s : Str) : Str := s.filter (fun c => c ≠ x)

/-- `s.strip()`: drop whitespace from both ends. -/
def pyStrip (s : Str) : Str :=
  ((s.dropWhile Char.isWhitespace).reverse.dropWhile Char.isWhitespace).reverse

/-- The canonical index key of a display name, from `preprocess_data`:
`df['Name'].str.strip().str.replace(' ', '').str.lower()`. -/
def normalizeIndexKey (name : Str) : Str :=
  pyLower (removeAll ' ' (pyStrip name))

/-- Normalization strategy 1 of `_try_multiple_normalizations`:
`name.replace(' ', '').replace(',', '').lower()`. -/
def normVariant1 (name : Str) : Str :=
  pyLower (removeAll ',' (removeAll ' ' name))

/-- Normalization strategy 2: `name.replace(' ', '').lower()`. -/
def normVariant2 (name : Str) : Str :=
  pyLower (removeAll ' ' name)

/-- Normalization strategy 3: `name.replace(',', '').lower()`. -/
def normVariant3 (name : Str) : Str :=
  pyLower (removeAll ',' name)

/-- Order-preserving de-duplication (the `seen` set loop at the end of
`_try_multiple_normalizations`): keeps the first occurrence. -/
def dedupKeepFirst (seen : List Str) : List Str → List Str
  | [] => []
  | x :: xs =>
    if x ∈ seen then dedupKeepFirst seen xs
    else x :: dedupKeepFirst (x :: seen) xs

/-- `_try_multiple_normalizations(name)`: the three strategies in order,
de-duplicated keeping first occurrences. -/
def tryMultipleNormalizations (name : Str) : List Str :=
  dedupKeepFirst [] [normVariant1 name, normVariant2 name, normVariant3 name]

/-! ## Data model -/

/-- One row of the dataset table.  The numeric fields hold the value after
`pd.to_numeric(..., errors='coerce').fillna(0)` from `preprocess_data`. -/
structure Row where
  Name : Str
  MeetName : Str
  Date : Str
  Division : Str
  Federation : Str
  Country : Str
  WeightClassKg : ℚ
  Best3SquatKg : ℚ
  Best3BenchKg : ℚ
  Best3DeadliftKg : ℚ
  TotalKg : ℚ
  Dots : ℚ
  BodyweightKg : ℚ
  Age : ℚ
deriving DecidableEq

/-- One record of the name index, as built by the record dictionary in
`preprocess_data` (the bookkeeping field `'index'`, the original dataframe
row number, is omitted: nothing reads it). -/
structure Record where
  original_name : Str
  meet_name : Str
  date : Str
  division : Str
  weight_class : ℚ
  federation : Str
  country : Str
  squat : ℚ
  bench : ℚ
  deadlift : ℚ
  total : ℚ
  dotscore : ℚ
  bodyweight : ℚ
  age : ℚ
  days_old : ℤ
deriving DecidableEq

abbrev NameIndex := List (Str × List Record)

/-- Dict lookup on an association list (keys from `groupby` are unique, so
first-match lookup is Python dict lookup). -/
def assocLookup {α : Type} : List (Str × α) → Str → Option α
  | [], _ => none
  | kv :: rest, k => if kv.1 = k then some kv.2 else assocLookup rest k

/-! ## Index Builder (`preprocess_data`) -/

/-- The record dictionary built for one dataframe row in `preprocess_data`;
`days_old` is `(pd.Timestamp.now() - pd.to_datetime(Date, errors='coerce')).days`
with `fillna(9999)`, computed with the clock value `nowDays` at build time. -/
def rowToRecord (parseDate : Str → Option ℤ) (nowDays : ℤ) (row : Row) : Record :=
  { original_name := row.Name
    meet_name := row.MeetName
    date := row.Date
    division := row.Division
    weight_class := row.WeightClassKg
    federation := row.Federation
    country := row.Country
    squat := row.Best3SquatKg
    bench := row.Best3BenchKg
    deadlift := row.Best3DeadliftKg
    total := row.TotalKg
    dotscore := row.Dots
    bodyweight := row.BodyweightKg
    age := row.Age
    days_old := ((parseDate row.Date).map (fun d => nowDays - d)).getD 9999 }

/-- Lexicographic comparison of keys (pandas `groupby` emits group keys in
ascending sorted order). -/
def strLeB : Str → Str → Bool
  | [], _ => true
  | _ :: _, [] => false
  | a :: as, b :: bs => if a < b then true else if b < a then false else strLeB as bs

/-- Ascending insertion of a key into a sorted key list. -/
def insertKeyAsc (k : Str) : List Str → List Str
  | [] => [k]
  | x :: xs => if strLeB k x then k :: x :: xs else x :: insertKeyAsc k xs

/-- Sort the distinct group keys ascending, as pandas `groupby` does. -/
def sortKeys : List Str → List Str
  | [] => []
  | x :: xs => insertKeyAsc x (sortKeys xs)

/-- `preprocess_data`: group the rows by canonical name
(`Name.strip().replace(' ', '').lower()`), preserving source order inside each
group, and store the per-row record dictionaries.  `groupby` iterates the
distinct keys in ascending order. -/
def buildIndex (parseDate : Str → Option ℤ) (nowDays : ℤ) (rows : List Row) : NameIndex :=
  let keys := sortKeys ((rows.map (fun r => normalizeIndexKey r.Name)).dedup)
  keys.map (fun k =>
    (k, (rows.filter (fun r => normalizeIndexKey r.Name = k)).map
          (rowToRecord parseDate nowDays)))

/-! ## Scorer (`_calculate_comprehensive_match_score`) -/

/-- `_calculate_comprehensive_match_score(record, name_similarity,
current_weight_class, meet_name)`.  `parseDate` embeds
`datetime.strptime(date, perCent-Y-m-d)` (the `try`/`except: pass` around it is the
`Option.none` branch) and `now` is the day number of `datetime.now()` at the
moment of the call. -/
def calculateComprehensiveMatchScore (parseDate : Str → Option ℤ) (now : ℤ)
    (record : Record) (name_similarity : ℚ) (current_weight_class : ℚ)
    (_meet_name : Str) : ℚ :=
  let score1 : ℚ := name_similarity * (1/2)
  let score2 : ℚ :=
    if record.weight_class > 0 ∧ current_weight_class > 0 then
      score1 + max 0 (1 - |record.weight_class - current_weight_class| / 20) * (3/10)
    else score1
  let score3 : ℚ :=
    if record.date ≠ [] then
      match parseDate record.date with
      | some d =>
        if now - d < 365 then score2 + 1/10
        else if now - d < 1095 then score2 + 1/20
        else score2
      | none => score2
    else score2
  let completeness : ℚ :=
    (if record.total > 0 then (1:ℚ)/2 else 0)
    + (if record.weight_class > 0 then 3/10 else 0)
    + (if record.date ≠ [] then 1/5 else 0)
  score3 + completeness * (1/10)

/-! ## Candidate Finder (`find_lifter_candidates`) -/

inductive MatchType where
  | exact
  | exact_duplicate
  | prefix_match
deriving DecidableEq

structure Candidate where
  record : Record
  score : ℚ
  name_similarity : ℚ
  match_type : MatchType
deriving DecidableEq

/-- Descending-score order used by `candidates.sort(key=..., reverse=True)`. -/
def scoreGE (a b : Candidate) : Prop := b.score ≤ a.score

instance : DecidableRel scoreGE := fun a b => inferInstanceAs (Decidable (b.score ≤ a.score))

instance : IsTotal Candidate scoreGE := ⟨fun a b => le_total b.score a.score⟩

instance : IsTrans Candidate scoreGE := ⟨fun _ _ _ h1 h2 => le_trans h2 h1⟩

/-- Stable descending sort by score (Python `list.sort` is stable;
`insertionSort` keeps the original relative order of equal scores too). -/
def sortCandidates (l : List Candidate) : List Candidate :=
  List.insertionSort scoreGE l

/-- The body of `find_lifter_candidates` for one normalization variant
`search_name`.  `none` means this variant produced neither an exact hit nor a
prefix hit and the loop moves on to the next variant; `some cands` means the
function returns `cands`.  (If the key `search_name` is present, the code
always returns: one record short-circuits, otherwise the scored-and-sorted
duplicates are returned, even when the stored list is empty.)  For prefix
matches the similarity is `len(search_name) / len(indexed_name)`. -/
def findForSearchName (parseDate : Str → Option ℤ) (now : ℤ) (index : NameIndex)
    (search_name : Str) (current_weight_class : ℚ) (meet_name : Str)
    (max_candidates : ℕ) : Option (List Candidate) :=
  match assocLookup index search_name with
  | some exact_records =>
    match exact_records with
    | [record] => some [⟨record, 1, 1, MatchType.exact⟩]
    | _ =>
      let cands := exact_records.map (fun record =>
        ⟨record,
         calculateComprehensiveMatchScore parseDate now record 1 current_weight_class meet_name,
         1, MatchType.exact_duplicate⟩)
      some ((sortCandidates cands).take max_candidates)
  | none =>
    let matching := index.filter (fun kv => search_name.isPrefixOf kv.1)
    if matching = [] then none
    else
      let cands := matching.flatMap (fun kv =>
        kv.2.map (fun record =>
          let ns : ℚ := (search_name.length : ℚ) / (kv.1.length : ℚ)
          ⟨record,
           calculateComprehensiveMatchScore parseDate now record ns current_weight_class meet_name,
           ns, MatchType.prefix_match⟩))
      some ((sortCandidates cands).take max_candidates)

/-- The `for search_name in search_names` loop: first variant that yields a
result wins; if none does, the result is the empty list. -/
def findOverVariants (parseDate : Str → Option ℤ) (now : ℤ) (index : NameIndex)
    (current_weight_class : ℚ) (meet_name : Str) (max_candidates : ℕ) :
    List Str → List Candidate
  | [] => []
  | v :: rest =>
    match findForSearchName parseDate now index v current_weight_class meet_name
        max_candidates with
    | some cands => cands
    | none => findOverVariants parseDate now index current_weight_class meet_name
        max_candidates rest

/-- `find_lifter_candidates(name, current_weight_class, meet_name,
max_candidates)`. -/
def findLifterCandidates (parseDate : Str → Option ℤ) (now : ℤ) (index : NameIndex)
    (name : Str) (current_weight_class : ℚ) (meet_name : Str)
    (max_candidates : ℕ) : List Candidate :=
  findOverVariants parseDate now index current_weight_class meet_name max_candidates
    (tryMultipleNormalizations name)

/-! ## Resolver (`get_lifter_stats_robust`) -/

inductive Confidence where
  | high
  | medium
  | low
  | exact
deriving DecidableEq

/-- The warning strings, kept structured: `verify` is
`'Possible match, verify accuracy'` and `multipleMatches n` is
`f'Multiple matches found (n candidates)'`. -/
inductive Warning where
  | verify
  | multipleMatches (count : ℕ)
deriving DecidableEq

/-- One entry of the `alternatives` list of the low-confidence response. -/
structure AltEntry where
  name : Str
  meet : Str
  date : Str
  weight_class : ℚ
  total : ℚ
  score : ℚ
deriving DecidableEq

/-- The result dictionary of `get_lifter_stats_robust`, one optional field per
key that only some branches emit.  The numeric stats model the values the code
emits as `str(...)`. -/
structure StatsResult where
  found : Bool
  reason : Option Str := none
  confidence : Option Confidence := none
  squat_kg : ℚ
  bench_kg : ℚ
  deadlift_kg : ℚ
  total : ℚ
  dotscore : ℚ
  meet_name : Option Str := none
  date : Option Str := none
  division : Option Str := none
  weight_class : Option ℚ := none
  federation : Option Str := none
  country : Option Str := none
  warning : Option Warning := none
  alternatives : Option (List AltEntry) := none
deriving DecidableEq

/-- The `no_matches` response of `get_lifter_stats_robust`. -/
def notFoundResult : StatsResult :=
  { found := false
    reason := some "no_matches".toList
    squat_kg := 0, bench_kg := 0, deadlift_kg := 0, total := 0, dotscore := 0 }

/-- The stats fields shared by the high/medium/low branches. -/
def statsFromRecord (conf : Confidence) (r : Record) : StatsResult :=
  { found := true
    confidence := some conf
    squat_kg := r.squat, bench_kg := r.bench, deadlift_kg := r.deadlift
    total := r.total, dotscore := r.dotscore
    meet_name := some r.meet_name, date := some r.date, division := some r.division
    weight_class := some r.weight_class, federation := some r.federation
    country := some r.country }

def highResult (r : Record) : StatsResult := statsFromRecord Confidence.high r

def mediumResult (r : Record) : StatsResult :=
  { statsFromRecord Confidence.medium r with warning := some Warning.verify }

def mkAlternative (c : Candidate) : AltEntry :=
  { name := c.record.original_name
    meet := c.record.meet_name
    date := c.record.date
    weight_class := c.record.weight_class
    total := c.record.total
    score := c.score }

/-- The low-confidence branch: best record, the next three candidates as
alternatives (`candidates[1:4]`), and the candidate count in the warning. -/
def lowResult (best : Candidate) (rest : List Candidate) : StatsResult :=
  { statsFromRecord Confidence.low best.record with
    alternatives := some ((rest.take 3).map mkAlternative)
    warning := some (Warning.multipleMatches (best :: rest).length) }

/-- The branch structure of `get_lifter_stats_robust` applied to the candidate
list returned by `find_lifter_candidates`. -/
def classifyCandidates : List Candidate → StatsResult
  | [] => notFoundResult
  | c :: rest =>
    if rest = [] ∧ c.score > 9/10 then highResult c.record
    else if rest = [] ∧ c.score > 7/10 then mediumResult c.record
    else lowResult c rest

/-- `get_lifter_stats_robust(name, current_weight_class, meet_name)`. -/
def getLifterStatsRobust (parseDate : Str → Option ℤ) (now : ℤ) (index : NameIndex)
    (name : Str) (current_weight_class : ℚ) (meet_name : Str) : StatsResult :=
  classifyCandidates
    (findLifterCandidates parseDate now index name current_weight_class meet_name 10)

/-! ## Batch lookup (`get_lifter_stats_batch`) -/

/-- The per-name result dictionary of `get_lifter_stats_batch`. -/
structure BatchResult where
  found : Bool
  confidence : Option Confidence := none
  squat_kg : ℚ
  bench_kg : ℚ
  deadlift_kg : ℚ
  total : ℚ
  dotscore : ℚ
deriving DecidableEq

/-- `_get_default_response()`: the not-found payload, all numeric fields `'0'`. -/
def getDefaultResponse : BatchResult :=
  { found := false
    squat_kg := 0, bench_kg := 0, deadlift_kg := 0, total := 0, dotscore := 0 }

/-- The found payload built from the first stored record of an exact hit. -/
def batchFoundPayload (r : Record) : BatchResult :=
  { found := true
    confidence := some Confidence.exact
    squat_kg := r.squat, bench_kg := r.bench, deadlift_kg := r.deadlift
    total := r.total, dotscore := r.dotscore }

/-- The inner variant loop of `get_lifter_stats_batch` for one name: first
exact key whose stored list is non-empty wins (an exact key with an empty
list does not `break`); otherwise the default response. -/
def batchLookupVariants (index : NameIndex) : List Str → BatchResult
  | [] => getDefaultResponse
  | v :: rest =>
    match assocLookup index v with
    | some (r :: _) => batchFoundPayload r
    | _ => batchLookupVariants index rest

/-- The per-name result of `get_lifter_stats_batch`. -/
def batchOneName (index : NameIndex) (name : Str) : BatchResult :=
  batchLookupVariants index (tryMultipleNormalizations name)

/-- `get_lifter_stats_batch(names)`: the results dictionary.  (Duplicate
occurrences of a name overwrite each other with the same value, so the
association list with first-match lookup models the dict.) -/
def getLifterStatsBatch (index : NameIndex) (names : List Str) :
    List (Str × BatchResult) :=
  names.map (fun n => (n, batchOneName index n))

/-! ## Dataset Store (`needs_update`, `download_data`, `load_data`) -/

/-- The metadata dictionary written by `download_data`; `last_update` is kept
as a timestamp in seconds, `file_hash` is the ETag/Last-Modified fingerprint
string from `_get_file_hash`. -/
structure Metadata where
  last_update : ℤ
  file_hash : Str
  rows : ℕ
  columns : List Str
deriving DecidableEq

/-- `needs_update()`.  `dataFileExists` is `os.path.exists(self.data_file)`,
`md` is the loaded metadata (`none` when the file is missing or unreadable —
`_load_metadata` then returns the empty dict, so both `last_update` and
`file_hash` lookups miss), `nowSec` is `datetime.now()` in seconds, and
`currentHash` is `_get_file_hash(url)` (the empty string on a network
failure). -/
def needsUpdate (dataFileExists : Bool) (md : Option Metadata) (nowSec : ℤ)
    (currentHash : Str) : Bool :=
  if dataFileExists = false then true
  else
    let cachedHash := (md.map (fun m => m.file_hash)).getD []
    match md.map (fun m => m.last_update) with
    | some lu =>
      if nowSec - lu > 86400 then true
      else decide (currentHash ≠ cachedHash)
    | none => decide (currentHash ≠ cachedHash)

/-- Contents of the cached dataset file: a fully-written parquet table, or the
debris of an interrupted in-place write (`df.to_parquet(self.data_file)`
truncates and rewrites the final path directly, so a failure mid-write leaves
a torn file). -/
inductive DataFileContent where
  | parquet (rows : List Row)
  | halfWritten (junk : ℕ)
deriving DecidableEq

/-- On-disk state touched by `download_data`. -/
structure StoreState where
  dataFile : Option DataFileContent
  metadata : Option Metadata
deriving DecidableEq

/-- Where `download_data` can stop.  `netFail` covers `requests.get` /
`raise_for_status` raising (nothing written yet); `zipFail` covers a bad
archive, a missing CSV member, or `read_csv` raising (still nothing written);
`writeFail` covers `to_parquet` raising after it has started rewriting the
cache file in place; `ok` is the success path, in which `_save_metadata` may
still fail internally (`metaWriteOk = false`) — it swallows its own exception
and the function still returns `True`, leaving the old metadata in place. -/
inductive DownloadOutcome where
  | netFail
  | zipFail
  | writeFail (junk : ℕ)
  | ok (rows : List Row) (hash : Str) (metaWriteOk : Bool)
deriving DecidableEq

/-- `download_data()`: final on-disk state and the returned boolean. -/
def downloadData (nowSec : ℤ) (columns : List Str) (st : StoreState)
    (o : DownloadOutcome) : StoreState × Bool :=
  match o with
  | DownloadOutcome.netFail => (st, false)
  | DownloadOutcome.zipFail => (st, false)
  | DownloadOutcome.writeFail junk =>
    ({ st with dataFile := some (DataFileContent.halfWritten junk) }, false)
  | DownloadOutcome.ok rows hash metaWriteOk =>
    let st1 : StoreState := { st with dataFile := some (DataFileContent.parquet rows) }
    let md : Metadata :=
      { last_update := nowSec, file_hash := hash, rows := rows.length, columns := columns }
    if metaWriteOk then ({ st1 with metadata := some md }, true)
    else (st1, true)

/-- A persisted index file as `load_data` sees it: absent, present but failing
to deserialize, or valid. -/
inductive PersistedFile where
  | absent
  | corrupt
  | valid (idx : NameIndex)
deriving DecidableEq

/-- The cache directory as `load_data` sees it. -/
structure CacheFiles where
  dataFile : Option (List Row)
  pickleIndexFile : PersistedFile
  jsonIndexFile : PersistedFile
deriving DecidableEq

/-- How `load_data` can end.  `raisedDatasetMissing` is the explicit
`FileNotFoundError`; `raisedDeserialize` is `pickle.load` or `json.load`
raising — neither call sits inside a `try`, so the exception propagates to the
caller. -/
inductive LoadOutcome where
  | raisedDatasetMissing
  | raisedDeserialize
  | loadedFromPickle (idx : NameIndex)
  | loadedFromJson (idx : NameIndex)
  | rebuilt (idx : NameIndex)
deriving DecidableEq

/-- `load_data()`: pickle first, then the JSON file, then rebuild — each step
keyed on file existence only. -/
def loadData (parseDate : Str → Option ℤ) (nowDays : ℤ) (st : CacheFiles) :
    LoadOutcome :=
  match st.dataFile with
  | none => LoadOutcome.raisedDatasetMissing
  | some rows =>
    match st.pickleIndexFile with
    | PersistedFile.valid idx => LoadOutcome.loadedFromPickle idx
    | PersistedFile.corrupt => LoadOutcome.raisedDeserialize
    | PersistedFile.absent =>
      match st.jsonIndexFile with
      | PersistedFile.valid idx => LoadOutcome.loadedFromJson idx
      | PersistedFile.corrupt => LoadOutcome.raisedDeserialize
      | PersistedFile.absent => LoadOutcome.rebuilt (buildIndex parseDate nowDays rows)

/-! ## Sortedness of the candidate lists -/

theorem sortCandidates_sorted (l : List Candidate) :
    List.Sorted scoreGE (sortCandidates l) :=
  List.sorted_insertionSort scoreGE l

theorem findForSearchName_sorted (parseDate : Str → Option ℤ) (now : ℤ)
    (index : NameIndex) (search_name : Str) (cwc : ℚ) (meet : Str) (maxc : ℕ)
    (cands : List Candidate)
    (h : findForSearchName parseDate now index search_name cwc meet maxc = some cands) :
    List.Sorted scoreGE cands := by
  unfold findForSearchName at h
  cases hl : assocLookup index search_name with
  | some exact_records =>
    rw [hl] at h
    match exact_records, h with
    | [record], h =>
      simp only [Option.some.injEq] at h
      subst h
      exact List.sorted_singleton _
    | [], h =>
      simp only [Option.some.injEq] at h
      subst h
      exact (sortCandidates_sorted _).take
    | r1 :: r2 :: tl, h =>
      simp only [Option.some.injEq] at h
      subst h
      exact (sortCandidates_sorted _).take
  | none =>
    rw [hl] at h
    by_cases hm : index.filter (fun kv => search_name.isPrefixOf kv.1) = []
    · simp only [hm, if_pos rfl] at h
      exact absurd h (by simp)
    · simp only [if_neg hm, Option.some.injEq] at h
      subst h
      exact (sortCandidates_sorted _).take

theorem findOverVariants_sorted (parseDate : Str → Option ℤ) (now : ℤ)
    (index : NameIndex) (cwc : ℚ) (meet : Str) (maxc : ℕ) (vs : List Str) :
    List.Sorted scoreGE (findOverVariants parseDate now index cwc meet maxc vs) := by
  induction vs with
  | nil => exact List.sorted_nil
  | cons v rest ih =>
    unfold findOverVariants
    cases hv : findForSearchName parseDate now index v cwc meet maxc with
    | some cands =>
      exact findForSearchName_sorted parseDate now index v cwc meet maxc cands hv
    | none => exact ih

theorem findLifterCandidates_sorted (parseDate : Str → Option ℤ) (now : ℤ)
    (index : NameIndex) (name : Str) (cwc : ℚ) (meet : Str) (maxc : ℕ) :
    List.Sorted scoreGE (findLifterCandidates parseDate now index name cwc meet maxc) :=
  findOverVariants_sorted parseDate now index cwc meet maxc
    (tryMultipleNormalizations name)

/-! ## Concrete material shared by witnesses and counterexamples -/

/-- A date parser that fails everywhere (all the witness rows carry empty
dates). -/
def parseNone : Str → Option ℤ := fun _ => none

/-- A dataset row with the given name and every other field empty/zero. -/
def simpleRow (nm : Str) : Row :=
  { Name := nm, MeetName := [], Date := [], Division := [], Federation := [], Country := []
    WeightClassKg := 0, Best3SquatKg := 0, Best3BenchKg := 0, Best3DeadliftKg := 0
    TotalKg := 0, Dots := 0, BodyweightKg := 0, Age := 0 }

def recX : Record := rowToRecord parseNone 0 (simpleRow ['x'])

def idxSingle : NameIndex := buildIndex parseNone 0 [simpleRow ['x']]

def candX : Candidate := ⟨recX, 1, 1, MatchType.exact⟩

/-! ## C1 -/

/-- C1: for every lookup, the resolver applied to the candidate list returned
by the finder satisfies the confidence-tier boundaries: no candidates gives
the not-found payload; a single candidate with score above 0.9 gives the
high-confidence payload for that record; a single candidate with score in
(0.7, 0.9] gives the medium-confidence payload with the verification warning;
otherwise the low-confidence payload is returned, carrying the best-scoring
record, at most three next-best alternatives, and a warning stating the
candidate count. -/
theorem C1_resolver_confidence_tiers (parseDate : Str → Option ℤ) (now : ℤ)
    (index : NameIndex) (name : Str) (cwc : ℚ) (meet : Str) :
    (findLifterCandidates parseDate now index name cwc meet 10 = [] →
      getLifterStatsRobust parseDate now index name cwc meet = notFoundResult)
    ∧ (∀ c, findLifterCandidates parseDate now index name cwc meet 10 = [c] →
        c.score > 9/10 →
        getLifterStatsRobust parseDate now index name cwc meet = highResult c.record)
    ∧ (∀ c, findLifterCandidates parseDate now index name cwc meet 10 = [c] →
        7/10 < c.score → c.score ≤ 9/10 →
        getLifterStatsRobust parseDate now index name cwc meet = mediumResult c.record
        ∧ (mediumResult c.record).warning = some Warning.verify)
    ∧ (∀ c rest, findLifterCandidates parseDate now index name cwc meet 10 = c :: rest →
        (rest ≠ [] ∨ c.score ≤ 7/10) →
        getLifterStatsRobust parseDate now index name cwc meet = lowResult c rest
        ∧ (∀ x ∈ (c :: rest), x.score ≤ c.score)
        ∧ (lowResult c rest).alternatives = some ((rest.take 3).map mkAlternative)
        ∧ ((rest.take 3).map mkAlternative).length ≤ 3
        ∧ (lowResult c rest).warning =
            some (Warning.multipleMatches (c :: rest).length)) := by
  have hcons : ∀ (c : Candidate) (rest : List Candidate),
      classifyCandidates (c :: rest) =
        if rest = [] ∧ c.score > 9/10 then highResult c.record
        else if rest = [] ∧ c.score > 7/10 then mediumResult c.record
        else lowResult c rest := fun _ _ => rfl
  refine ⟨?_, ?_, ?_, ?_⟩
  · intro h
    unfold getLifterStatsRobust
    rw [h]
    rfl
  · intro c h hs
    unfold getLifterStatsRobust
    rw [h, hcons, if_pos ⟨rfl, hs⟩]
  · intro c h h7 h9
    have h1 : ¬(([] : List Candidate) = [] ∧ c.score > 9/10) := by
      rintro ⟨-, h'⟩
      linarith
    unfold getLifterStatsRobust
    rw [h, hcons, if_neg h1, if_pos ⟨rfl, h7⟩]
    exact ⟨rfl, rfl⟩
  · intro c rest h hother
    have hsorted := findLifterCandidates_sorted parseDate now index name cwc meet 10
    rw [h] at hsorted
    have hbest : ∀ x ∈ (c :: rest), x.score ≤ c.score := by
      intro x hx
      rcases List.mem_cons.mp hx with hx' | hx'
      · rw [hx']
      · exact (List.sorted_cons.mp hsorted).1 x hx'
    have hn1 : ¬(rest = [] ∧ c.score > 9/10) := by
      rintro ⟨he, h'⟩
      rcases hother with hne | hle
      · exact hne he
      · linarith
    have hn2 : ¬(rest = [] ∧ c.score > 7/10) := by
      rintro ⟨he, h'⟩
      rcases hother with hne | hle
      · exact hne he
      · linarith
    unfold getLifterStatsRobust
    rw [h, hcons, if_neg hn1, if_neg hn2]
    refine ⟨rfl, hbest, rfl, ?_, rfl⟩
    calc ((rest.take 3).map mkAlternative).length
        = (rest.take 3).length := List.length_map _ _
      _ ≤ 3 := List.length_take_le 3 rest

/-- Witness for C1: a concrete single-record index in which the lookup for
`"x"` yields one candidate of score 1, and the resolver returns the
high-confidence payload for that record. -/
theorem C1_resolver_confidence_tiers_witness :
    findLifterCandidates parseNone 0 idxSingle ['x'] 0 [] 10 = [candX]
    ∧ candX.score > 9/10
    ∧ getLifterStatsRobust parseNone 0 idxSingle ['x'] 0 [] = highResult candX.record :=
  ⟨by decide, by norm_num [candX],
    (C1_resolver_confidence_tiers parseNone 0 idxSingle ['x'] 0 []).2.1 candX
      (by decide) (by norm_num [candX])⟩

/-! ## C2 -/

def rowABX : Row := simpleRow "ABX".toList

def rowACB : Row := simpleRow "A,B".toList

/-- Index built from the two display names `"ABX"` and `"A,B"`: its keys are
`"a,b"` and `"abx"`. -/
def idxC2 : NameIndex := buildIndex parseNone 0 [rowABX, rowACB]

def recACB : Record := rowToRecord parseNone 0 rowACB

/-- Counterexample to C2 as stated: for the searched name `"a,b"` the
normalization variant `"a,b"` is an index key holding exactly one record, yet
the finder does not return that record as a single exact candidate — the
earlier variant `"ab"` already produces a prefix hit on the key `"abx"` and
the loop returns those prefix candidates instead. -/
theorem C2_counterexample :
    ("a,b".toList) ∈ tryMultipleNormalizations ("a,b".toList)
    ∧ assocLookup idxC2 ("a,b".toList) = some [recACB]
    ∧ findLifterCandidates parseNone 0 idxC2 ("a,b".toList) 0 [] 10 ≠
        [⟨recACB, 1, 1, MatchType.exact⟩] := by
  refine ⟨by decide, by decide, ?_⟩
  decide

/-- C2 amended: the short-circuit holds for the first normalization variant
that yields any result.  If every variant before `v` yields neither an exact
hit nor a prefix hit, and `v` is an index key holding exactly one record, then
the finder returns exactly that record as its only candidate with
`match_type = exact`, `score = 1`, `name_similarity = 1`, independently of the
scoring context. -/
theorem C2_exact_singleton_short_circuit (parseDate : Str → Option ℤ) (now : ℤ)
    (index : NameIndex) (name : Str) (cwc : ℚ) (meet : Str) (maxc : ℕ)
    (v : Str) (r : Record) (pre post : List Str)
    (hvars : tryMultipleNormalizations name = pre ++ v :: post)
    (hpre : ∀ u ∈ pre, findForSearchName parseDate now index u cwc meet maxc = none)
    (hv : assocLookup index v = some [r]) :
    findLifterCandidates parseDate now index name cwc meet maxc =
      [⟨r, 1, 1, MatchType.exact⟩] := by
  have hfv : findForSearchName parseDate now index v cwc meet maxc =
      some [⟨r, 1, 1, MatchType.exact⟩] := by
    unfold findForSearchName
    rw [hv]
  unfold findLifterCandidates
  rw [hvars]
  clear hvars
  induction pre with
  | nil =>
    simp only [List.nil_append]
    unfold findOverVariants
    rw [hfv]
  | cons u us ih =>
    simp only [List.cons_append]
    unfold findOverVariants
    rw [hpre u (List.mem_cons_self u us)]
    exact ih (fun w hw => hpre w (List.mem_cons_of_mem u hw))

/-- Witness for the amended C2: in the single-record index, looking up `"x"`
(whose only variant is `"x"`, an exact singleton key) returns the one exact
candidate. -/
theorem C2_exact_singleton_short_circuit_witness :
    tryMultipleNormalizations ['x'] = [] ++ ['x'] :: []
    ∧ assocLookup idxSingle ['x'] = some [recX]
    ∧ findLifterCandidates parseNone 0 idxSingle ['x'] 0 [] 10 =
        [⟨recX, 1, 1, MatchType.exact⟩] :=
  ⟨by decide, by decide,
    C2_exact_singleton_short_circuit parseNone 0 idxSingle ['x'] 0 [] 10 ['x'] recX [] []
      (by decide) (by intro u hu; exact absurd hu (List.not_mem_nil u)) (by decide)⟩

/-! ## C3 -/

/-- The weight-class proximity term, written the way the spec states it (for
comparison against the code-derived scorer). -/
def weightTermSpec (record : Record) (hint : ℚ) : ℚ :=
  if record.weight_class > 0 ∧ hint > 0 then
    max 0 (1 - |record.weight_class - hint| / 20) * (3/10)
  else 0

/-- The recency term, written the way the spec states it: 0.1 if the record
date parses and is within 365 days of now, 0.05 if within 1095 days, else 0
(unparsable dates contribute 0). -/
def recencyTermSpec (parseDate : Str → Option ℤ) (now : ℤ) (record : Record) : ℚ :=
  match parseDate record.date with
  | some d => if now - d < 365 then 1/10 else if now - d < 1095 then 1/20 else 0
  | none => 0

/-- The completeness sub-score, written the way the spec states it. -/
def completenessSpec (record : Record) : ℚ :=
  (if record.total > 0 then (1:ℚ)/2 else 0)
  + (if record.weight_class > 0 then 3/10 else 0)
  + (if record.date ≠ [] then 1/5 else 0)

/-- C3: the composite score equals `0.5 * nameSimilarity` plus the spec's
weight-class term plus the spec's recency term plus `0.1` times the spec's
completeness sub-score; the weight term is exactly 0.3 at zero difference and
0 at difference at least 20; and for a name similarity in `[0, 1]` the score
lies in `[0, 1]`.  The hypothesis `parseDate [] = none` records that the date
parser rejects the empty string, which is how `strptime` behaves on the empty
date that the code additionally guards with `if record['date']:`. -/
theorem C3_composite_score_decomposition (parseDate : Str → Option ℤ) (now : ℤ)
    (r : Record) (s cwc : ℚ) (meet : Str)
    (hempty : parseDate [] = none) (hs0 : 0 ≤ s) (hs1 : s ≤ 1) :
    calculateComprehensiveMatchScore parseDate now r s cwc meet
      = s * (1/2) + weightTermSpec r cwc + recencyTermSpec parseDate now r
        + completenessSpec r * (1/10)
    ∧ (r.weight_class > 0 → cwc > 0 → r.weight_class = cwc → weightTermSpec r cwc = 3/10)
    ∧ (20 ≤ |r.weight_class - cwc| → weightTermSpec r cwc = 0)
    ∧ 0 ≤ calculateComprehensiveMatchScore parseDate now r s cwc meet
    ∧ calculateComprehensiveMatchScore parseDate now r s cwc meet ≤ 1 := by
  have habs : (0:ℚ) ≤ |r.weight_class - cwc| := abs_nonneg _
  have hmax0 : (0:ℚ) ≤ max 0 (1 - |r.weight_class - cwc| / 20) := le_max_left 0 _
  have hmax1 : max 0 (1 - |r.weight_class - cwc| / 20) ≤ 1 := by
    apply max_le (by norm_num)
    linarith
  have hw0 : 0 ≤ weightTermSpec r cwc := by
    unfold weightTermSpec
    split_ifs
    · exact mul_nonneg hmax0 (by norm_num)
    · exact le_refl 0
  have hw3 : weightTermSpec r cwc ≤ 3/10 := by
    unfold weightTermSpec
    split_ifs
    · nlinarith
    · norm_num
  have hrec0 : 0 ≤ recencyTermSpec parseDate now r := by
    unfold recencyTermSpec
    cases parseDate r.date with
    | none => norm_num
    | some d =>
      dsimp only
      split_ifs <;> norm_num
  have hrec1 : recencyTermSpec parseDate now r ≤ 1/10 := by
    unfold recencyTermSpec
    cases parseDate r.date with
    | none => norm_num
    | some d =>
      dsimp only
      split_ifs <;> norm_num
  have hcomp0 : 0 ≤ completenessSpec r := by
    unfold completenessSpec
    split_ifs <;> norm_num
  have hcomp1 : completenessSpec r ≤ 1 := by
    unfold completenessSpec
    split_ifs <;> norm_num
  have hdecomp : calculateComprehensiveMatchScore parseDate now r s cwc meet
      = s * (1/2) + weightTermSpec r cwc + recencyTermSpec parseDate now r
        + completenessSpec r * (1/10) := by
    simp only [calculateComprehensiveMatchScore, weightTermSpec, recencyTermSpec,
      completenessSpec]
    by_cases hd : r.date = []
    · simp only [hd, hempty, ne_eq, not_true_eq_false, if_false]
      split_ifs <;> ring
    · simp only [ne_eq, hd, not_false_eq_true, if_true]
      cases hpd : parseDate r.date with
      | none => split_ifs <;> ring
      | some d =>
        dsimp only
        by_cases h365 : now - d < 365
        · rw [if_pos h365, if_pos h365]
          split_ifs <;> ring
        · rw [if_neg h365, if_neg h365]
          by_cases h1095 : now - d < 1095
          · rw [if_pos h1095, if_pos h1095]
            split_ifs <;> ring
          · rw [if_neg h1095, if_neg h1095]
            split_ifs <;> ring
  refine ⟨hdecomp, ?_, ?_, ?_, ?_⟩
  · intro h1 h2 h3
    unfold weightTermSpec
    rw [if_pos ⟨h1, h2⟩, h3, sub_self, abs_zero]
    norm_num
  · intro h20
    unfold weightTermSpec
    split_ifs with h
    · have hle : 1 - |r.weight_class - cwc| / 20 ≤ 0 := by linarith
      rw [max_eq_left hle, zero_mul]
    · rfl
  · have h1 : 0 ≤ s * (1/2) := by nlinarith
    have h3 : 0 ≤ completenessSpec r * (1/10) := by nlinarith
    rw [hdecomp]
    linarith
  · have h2 : s * (1/2) ≤ 1/2 := by nlinarith
    have h4 : completenessSpec r * (1/10) ≤ 1/10 := by nlinarith
    rw [hdecomp]
    linarith

/-- Witness for C3 at a concrete record and similarity 1/2: the decomposition
and the bounds hold with all hypotheses discharged. -/
theorem C3_composite_score_decomposition_witness :
    calculateComprehensiveMatchScore parseNone 0 recX (1/2) 0 []
      = (1/2) * (1/2) + weightTermSpec recX 0 + recencyTermSpec parseNone 0 recX
        + completenessSpec recX * (1/10)
    ∧ 0 ≤ calculateComprehensiveMatchScore parseNone 0 recX (1/2) 0 [] :=
  ⟨(C3_composite_score_decomposition parseNone 0 recX (1/2) 0 [] rfl (by norm_num)
      (by norm_num)).1,
   (C3_composite_score_decomposition parseNone 0 recX (1/2) 0 [] rfl (by norm_num)
      (by norm_num)).2.2.2.1⟩

/-! ## C4 -/

theorem assocLookup_mapSelf {β : Type} (f : Str → β) (names : List Str) (n : Str)
    (h : n ∈ names) :
    assocLookup (names.map fun x => (x, f x)) n = some (f n) := by
  induction names with
  | nil => cases h
  | cons a rest ih =>
    simp only [List.map_cons]
    unfold assocLookup
    by_cases he : a = n
    · subst he
      simp
    · rw [if_neg he]
      rcases List.mem_cons.mp h with h' | h'
      · exact absurd h'.symm he
      · exact ih h'

theorem batchLookupVariants_default (index : NameIndex) (vs : List Str)
    (h : ∀ v ∈ vs, assocLookup index v = none) :
    batchLookupVariants index vs = getDefaultResponse := by
  induction vs with
  | nil => rfl
  | cons v rest ih =>
    unfold batchLookupVariants
    rw [h v (List.mem_cons_self v rest)]
    exact ih (fun w hw => h w (List.mem_cons_of_mem v hw))

theorem batchLookupVariants_found (index : NameIndex) (v : Str) (r : Record)
    (rest' : List Record) (pre post : List Str)
    (hpre : ∀ u ∈ pre, assocLookup index u = none)
    (hv : assocLookup index v = some (r :: rest')) :
    batchLookupVariants index (pre ++ v :: post) = batchFoundPayload r := by
  induction pre with
  | nil =>
    simp only [List.nil_append]
    unfold batchLookupVariants
    rw [hv]
  | cons u us ih =>
    simp only [List.cons_append]
    unfold batchLookupVariants
    rw [hpre u (List.mem_cons_self u us)]
    exact ih (fun w hw => hpre w (List.mem_cons_of_mem u hw))

/-- C4: batch lookup maps every requested name to its result.  When some
normalization variant `v` of the name is the first variant that is an exact
index key (all earlier variants miss), and `v` holds records, the result is
the found payload of the first stored record with `confidence = exact`; when
no variant is an exact index key, the result is the default not-found payload
whose numeric fields are all zero. -/
theorem C4_batch_first_exact_hit (index : NameIndex) (names : List Str) (name : Str)
    (hmem : name ∈ names) :
    (∀ v pre post r rest',
      tryMultipleNormalizations name = pre ++ v :: post →
      (∀ u ∈ pre, assocLookup index u = none) →
      assocLookup index v = some (r :: rest') →
      assocLookup (getLifterStatsBatch index names) name = some (batchFoundPayload r)
      ∧ (batchFoundPayload r).found = true
      ∧ (batchFoundPayload r).confidence = some Confidence.exact
      ∧ (batchFoundPayload r).squat_kg = r.squat
      ∧ (batchFoundPayload r).total = r.total)
    ∧ ((∀ v ∈ tryMultipleNormalizations name, assocLookup index v = none) →
      assocLookup (getLifterStatsBatch index names) name = some getDefaultResponse
      ∧ getDefaultResponse.found = false
      ∧ getDefaultResponse.squat_kg = 0 ∧ getDefaultResponse.bench_kg = 0
      ∧ getDefaultResponse.deadlift_kg = 0 ∧ getDefaultResponse.total = 0
      ∧ getDefaultResponse.dotscore = 0) := by
  constructor
  · intro v pre post r rest' hvars hpre hv
    have hone : batchOneName index name = batchFoundPayload r := by
      unfold batchOneName
      rw [hvars]
      exact batchLookupVariants_found index v r rest' pre post hpre hv
    refine ⟨?_, rfl, rfl, rfl, rfl⟩
    unfold getLifterStatsBatch
    rw [assocLookup_mapSelf (batchOneName index) names name hmem, hone]
  · intro hall
    have hone : batchOneName index name = getDefaultResponse := by
      unfold batchOneName
      exact batchLookupVariants_default index (tryMultipleNormalizations name) hall
    refine ⟨?_, rfl, rfl, rfl, rfl, rfl, rfl⟩
    unfold getLifterStatsBatch
    rw [assocLookup_mapSelf (batchOneName index) names name hmem, hone]

/-- Witness for C4: in the single-record index, the batch result for `"x"` is
the exact-confidence payload of its record, and the batch result for `"z"`
(no variant is a key) is the zero-valued default payload. -/
theorem C4_batch_first_exact_hit_witness :
    assocLookup (getLifterStatsBatch idxSingle [['x']]) ['x'] = some (batchFoundPayload recX)
    ∧ assocLookup (getLifterStatsBatch idxSingle [['z']]) ['z'] = some getDefaultResponse :=
  ⟨((C4_batch_first_exact_hit idxSingle [['x']] ['x'] (by decide)).1 ['x'] [] [] recX []
      (by decide) (by intro u hu; exact absurd hu (List.not_mem_nil u)) (by decide)).1,
   ((C4_batch_first_exact_hit idxSingle [['z']] ['z'] (by decide)).2 (by decide)).1⟩

/-! ## C5 -/

/-- Counterexample to C5: with the raw dataset cached and a persisted pickle
index that exists but fails to deserialize, `load_data` raises the
deserialization error to its caller instead of rebuilding — `pickle.load` is
not wrapped in any `try`. -/
theorem C5_counterexample :
    loadData parseNone 0
      { dataFile := some [rowABX]
        pickleIndexFile := PersistedFile.corrupt
        jsonIndexFile := PersistedFile.absent }
      = LoadOutcome.raisedDeserialize := rfl

/-- C5 amended: the full rebuild is triggered only when the dataset cache
exists and no persisted index file exists at all (neither the pickle nor the
JSON file); a persisted index that exists but fails to deserialize makes
`load_data` raise to the caller, whichever of the two files is corrupt. -/
theorem C5_rebuild_only_when_index_missing (parseDate : Str → Option ℤ)
    (nowDays : ℤ) (rows : List Row) (j : PersistedFile) :
    loadData parseDate nowDays
      { dataFile := some rows
        pickleIndexFile := PersistedFile.absent
        jsonIndexFile := PersistedFile.absent }
      = LoadOutcome.rebuilt (buildIndex parseDate nowDays rows)
    ∧ loadData parseDate nowDays
        { dataFile := some rows
          pickleIndexFile := PersistedFile.corrupt
          jsonIndexFile := j }
        = LoadOutcome.raisedDeserialize
    ∧ loadData parseDate nowDays
        { dataFile := some rows
          pickleIndexFile := PersistedFile.absent
          jsonIndexFile := PersistedFile.corrupt }
        = LoadOutcome.raisedDeserialize :=
  ⟨rfl, rfl, rfl⟩

/-! ## C6 -/

def mdExample : Metadata :=
  { last_update := 0, file_hash := [], rows := 1, columns := [] }

def stExample : StoreState :=
  { dataFile := some (DataFileContent.parquet [rowABX]), metadata := some mdExample }

/-- Counterexample to C6: a failure of the in-place `to_parquet` write returns
`False` but does not leave the previously cached dataset intact — the cache
file now holds the torn write. -/
theorem C6_counterexample :
    (downloadData 0 [] stExample (DownloadOutcome.writeFail 0)).2 = false
    ∧ (downloadData 0 [] stExample (DownloadOutcome.writeFail 0)).1 ≠ stExample := by
  exact ⟨rfl, by decide⟩

/-- C6 amended: a failure before the cache write (network, archive, CSV parse)
leaves the whole prior state untouched, and a failed refresh never modifies
the staleness metadata; but a failure during the dataset write itself can
leave a partially replaced dataset file, because the write targets the cache
path in place. -/
theorem C6_failed_refresh_preserves_metadata (nowSec : ℤ) (columns : List Str)
    (st : StoreState) (j : ℕ) :
    downloadData nowSec columns st DownloadOutcome.netFail = (st, false)
    ∧ downloadData nowSec columns st DownloadOutcome.zipFail = (st, false)
    ∧ (downloadData nowSec columns st (DownloadOutcome.writeFail j)).2 = false
    ∧ (downloadData nowSec columns st (DownloadOutcome.writeFail j)).1.metadata
        = st.metadata :=
  ⟨rfl, rfl, rfl, rfl⟩

/-! ## C7 -/

/-- C7: the staleness check returns true exactly when the cached dataset file
is missing, or the metadata records a last refresh more than 24 hours
(86400 seconds) old, or the current remote fingerprint differs from the
cached one (the empty string when no metadata is readable). -/
theorem C7_needs_update_iff (e : Bool) (md : Option Metadata) (nowSec : ℤ)
    (currentHash : Str) :
    needsUpdate e md nowSec currentHash = true ↔
      (e = false
       ∨ (∃ m, md = some m ∧ nowSec - m.last_update > 86400)
       ∨ currentHash ≠ (md.map (fun m => m.file_hash)).getD []) := by
  cases e with
  | false => simp [needsUpdate]
  | true =>
    cases md with
    | none => simp [needsUpdate]
    | some m =>
      have hred : needsUpdate true (some m) nowSec currentHash
          = if nowSec - m.last_update > 86400 then true
            else decide (currentHash ≠ m.file_hash) := rfl
      rw [hred]
      by_cases h24 : nowSec - m.last_update > 86400
      · rw [if_pos h24]
        constructor
        · intro _
          exact Or.inr (Or.inl ⟨m, rfl, h24⟩)
        · intro _
          rfl
      · rw [if_neg h24, decide_eq_true_eq]
        constructor
        · intro h
          exact Or.inr (Or.inr h)
        · intro h
          rcases h with h | h | h
          · exact absurd h (by simp)
          · obtain ⟨m', hm', hgt⟩ := h
            injection hm' with hmm
            rw [hmm] at h24
            exact absurd hgt h24
          · exact h

/-! ## C8 -/

/-- C8: every entry of the built index satisfies the invariant — each record
stored under key `k` has canonical (normalized) name exactly `k`, and the
records under each key form a sublist of the full record list in source
order. -/
theorem C8_index_builder_invariant (parseDate : Str → Option ℤ) (nowDays : ℤ)
    (rows : List Row) (k : Str) (recs : List Record)
    (h : (k, recs) ∈ buildIndex parseDate nowDays rows) :
    (∀ rec ∈ recs, normalizeIndexKey rec.original_name = k)
    ∧ List.Sublist recs (rows.map (rowToRecord parseDate nowDays)) := by
  unfold buildIndex at h
  obtain ⟨k', _, heq⟩ := List.mem_map.mp h
  have h1 : k' = k := congrArg Prod.fst heq
  have h2 : (rows.filter (fun r => normalizeIndexKey r.Name = k')).map
      (rowToRecord parseDate nowDays) = recs := congrArg Prod.snd heq
  constructor
  · intro rec hrec
    rw [← h2] at hrec
    obtain ⟨row, hrow, hreq⟩ := List.mem_map.mp hrec
    have hkey : normalizeIndexKey row.Name = k' :=
      of_decide_eq_true (List.mem_filter.mp hrow).2
    rw [← hreq]
    show normalizeIndexKey row.Name = k
    rw [hkey, h1]
  · rw [← h2]
    exact (List.filter_sublist rows).map (rowToRecord parseDate nowDays)

/-- Witness for C8: the single-row index contains the entry for key `"x"`,
whose record's canonical name is `"x"`. -/
theorem C8_index_builder_invariant_witness :
    (['x'], [recX]) ∈ buildIndex parseNone 0 [simpleRow ['x']]
    ∧ (∀ rec ∈ [recX], normalizeIndexKey rec.original_name = ['x']) :=
  ⟨by decide,
   (C8_index_builder_invariant parseNone 0 [simpleRow ['x']] ['x'] [recX] (by decide)).1⟩

/-! ## C9 -/

/-- A date parser that recognizes exactly the day `"2020-01-01"`, mapping it
to day number 0 (consistent with `strptime` succeeding on that string). -/
def parseD : Str → Option ℤ :=
  fun s => if s = "2020-01-01".toList then some 0 else none

def rowDated : Row := { simpleRow ['d'] with Date := "2020-01-01".toList }

def recDated : Record := rowToRecord parseD 0 rowDated

/-- Counterexample to C9: with the index (and hence `days_old`) built at one
fixed time, the same record scores differently at two different lookup-call
clock values — the recency signal used when scoring tracks the wall-clock
time of the lookup, not the dataset's freshness as of the last rebuild. -/
theorem C9_counterexample :
    recDated = rowToRecord parseD 0 rowDated
    ∧ calculateComprehensiveMatchScore parseD 100 recDated 1 0 [] ≠
        calculateComprehensiveMatchScore parseD 2000 recDated 1 0 [] := by
  refine ⟨rfl, ?_⟩
  have h1 : calculateComprehensiveMatchScore parseD 100 recDated 1 0 [] = 31/50 := by
    norm_num [calculateComprehensiveMatchScore, parseD, recDated, rowDated, simpleRow,
      rowToRecord]
    rw [if_neg (by decide), if_neg (by decide)]
    norm_num
  have h2 : calculateComprehensiveMatchScore parseD 2000 recDated 1 0 [] = 13/25 := by
    norm_num [calculateComprehensiveMatchScore, parseD, recDated, rowDated, simpleRow,
      rowToRecord]
    rw [if_neg (by decide)]
    norm_num
  rw [h1, h2]
  norm_num

/-- C9 amended: the index builder does compute `days_old` for every stored
record at build time (9999 when the date is missing or unparsable), but the
scorer ignores the stored `days_old` entirely — its output is unchanged under
any modification of that field, and its recency term is recomputed from the
record's date string and the clock value of the scoring call. -/
theorem C9_days_old_computed_at_build_time (parseDate : Str → Option ℤ)
    (nowDays : ℤ) (rows : List Row) (k : Str) (recs : List Record) (rec : Record)
    (h1 : (k, recs) ∈ buildIndex parseDate nowDays rows) (h2 : rec ∈ recs) :
    rec.days_old = ((parseDate rec.date).map (fun d => nowDays - d)).getD 9999
    ∧ ∀ (pd : Str → Option ℤ) (now : ℤ) (s cwc : ℚ) (meet : Str) (dOld : ℤ),
        calculateComprehensiveMatchScore pd now { rec with days_old := dOld } s cwc meet
          = calculateComprehensiveMatchScore pd now rec s cwc meet := by
  constructor
  · unfold buildIndex at h1
    obtain ⟨k', _, heq⟩ := List.mem_map.mp h1
    have hsnd : (rows.filter (fun r => normalizeIndexKey r.Name = k')).map
        (rowToRecord parseDate nowDays) = recs := congrArg Prod.snd heq
    rw [← hsnd] at h2
    obtain ⟨row, _, hreq⟩ := List.mem_map.mp h2
    rw [← hreq]
    rfl
  · intro pd now s cwc meet dOld
    rfl

/-- Witness for the amended C9: the concrete single-record index stores
`days_old = 9999` (its empty date does not parse), and rewriting `days_old`
does not change the record's score. -/
theorem C9_days_old_computed_at_build_time_witness :
    recX.days_old = ((parseNone recX.date).map (fun d => (0:ℤ) - d)).getD 9999
    ∧ calculateComprehensiveMatchScore parseNone 0 { recX with days_old := 5 } 1 0 []
        = calculateComprehensiveMatchScore parseNone 0 recX 1 0 [] :=
  ⟨(C9_days_old_computed_at_build_time parseNone 0 [simpleRow ['x']] ['x'] [recX] recX
      (by decide) (by decide)).1,
   (C9_days_old_computed_at_build_time parseNone 0 [simpleRow ['x']] ['x'] [recX] recX
      (by decide) (by decide)).2 parseNone 0 1 0 [] 5⟩

/-! ## C10 -/

theorem mem_dropWhile_of_neg {p : Char → Bool} {x : Char} (hp : p x = false) :
    ∀ {l : Str}, x ∈ l → x ∈ l.dropWhile p := by
  intro l hx
  induction l with
  | nil => cases hx
  | cons a t ih =>
    rw [List.dropWhile_cons]
    by_cases ha : p a = true
    · rw [if_pos ha]
      rcases List.mem_cons.mp hx with he | h'
      · subst he
        rw [hp] at ha
        exact Bool.noConfusion ha
      · exact ih h'
    · rw [if_neg ha]
      exact hx

theorem toLower_ne_comma (c : Char) (h : c ≠ ',') : c.toLower ≠ ',' := by
  have key : ∀ n : ℕ, 65 ≤ n → n ≤ 90 → Char.ofNat (n + 32) ≠ ',' := by
    intro n hl hr
    interval_cases n <;> decide
  simp only [Char.toLower]
  split_ifs with hc
  · exact key c.toNat hc.1 hc.2
  · exact h

theorem comma_not_mem_pyLower_removeAll (t : Str) :
    ',' ∉ pyLower (removeAll ',' t) := by
  intro hmem
  unfold pyLower at hmem
  obtain ⟨c, hc, hlow⟩ := List.mem_map.mp hmem
  unfold removeAll at hc
  have hne : c ≠ ',' := of_decide_eq_true (List.mem_filter.mp hc).2
  exact toLower_ne_comma c hne hlow

theorem comma_mem_normalizeIndexKey (name : Str) (h : ',' ∈ name) :
    ',' ∈ normalizeIndexKey name := by
  unfold normalizeIndexKey
  have h1 : ',' ∈ pyStrip name := by
    unfold pyStrip
    rw [List.mem_reverse]
    refine mem_dropWhile_of_neg (by decide) ?_
    rw [List.mem_reverse]
    exact mem_dropWhile_of_neg (by decide) h
  have h2 : ',' ∈ removeAll ' ' (pyStrip name) := by
    unfold removeAll
    exact List.mem_filter.mpr ⟨h1, by decide⟩
  unfold pyLower
  exact List.mem_map.mpr ⟨',', h2, by decide⟩

theorem removeAll_dropWhile_space :
    ∀ (l : Str), (∀ c ∈ l, c.isWhitespace = true → c = ' ') →
      removeAll ' ' (l.dropWhile Char.isWhitespace) = removeAll ' ' l := by
  intro l h
  induction l with
  | nil => rfl
  | cons a t ih =>
    rw [List.dropWhile_cons]
    by_cases ha : a.isWhitespace = true
    · rw [if_pos ha]
      have ha' : a = ' ' := h a (List.mem_cons_self a t) ha
      rw [ih (fun c hc hw => h c (List.mem_cons_of_mem a hc) hw), ha']
      show removeAll ' ' t = removeAll ' ' (' ' :: t)
      unfold removeAll
      rw [List.filter_cons_of_neg (by decide)]
    · rw [if_neg ha]

theorem removeAll_pyStrip_of_space_only (name : Str)
    (h : ∀ c ∈ name, c.isWhitespace = true → c = ' ') :
    removeAll ' ' (pyStrip name) = removeAll ' ' name := by
  have hmem : ∀ c ∈ (name.dropWhile Char.isWhitespace).reverse,
      c.isWhitespace = true → c = ' ' := by
    intro c hc hw
    exact h c ((List.dropWhile_sublist _).subset (List.mem_reverse.mp hc)) hw
  unfold pyStrip
  calc removeAll ' '
        (((name.dropWhile Char.isWhitespace).reverse.dropWhile Char.isWhitespace).reverse)
      = (removeAll ' '
          ((name.dropWhile Char.isWhitespace).reverse.dropWhile Char.isWhitespace)).reverse := by
        unfold removeAll
        exact List.filter_reverse _ _
    _ = (removeAll ' ' ((name.dropWhile Char.isWhitespace).reverse)).reverse := by
        rw [removeAll_dropWhile_space _ hmem]
    _ = ((removeAll ' ' (name.dropWhile Char.isWhitespace)).reverse).reverse := by
        unfold removeAll
        rw [List.filter_reverse]
    _ = removeAll ' ' (name.dropWhile Char.isWhitespace) := List.reverse_reverse _
    _ = removeAll ' ' name := removeAll_dropWhile_space name h

/-- Counterexample to C10 as stated: the display name `"\tA,B"` contains a
comma, but normalization variant 2 (remove spaces only, lowercase) does not
equal that name's own index key — the index key strips the leading tab, the
variant does not. -/
theorem C10_counterexample :
    ',' ∈ ("\tA,B".toList)
    ∧ normVariant2 ("\tA,B".toList) ≠ normalizeIndexKey ("\tA,B".toList) :=
  ⟨by decide, by decide⟩

/-- C10 amended: index keys preserve commas, so for a display name containing
a comma, variant 1 (remove spaces and commas, lowercase) never equals the
name's own index key; variant 2 (remove spaces only, lowercase) equals the key
provided every whitespace character of the name is a plain space (stripping
then removes nothing that space removal does not). -/
theorem C10_index_keys_preserve_commas (name : Str) (hc : ',' ∈ name) :
    ',' ∈ normalizeIndexKey name
    ∧ normVariant1 name ≠ normalizeIndexKey name
    ∧ ((∀ c ∈ name, c.isWhitespace = true → c = ' ') →
        normVariant2 name = normalizeIndexKey name) := by
  have hkey := comma_mem_normalizeIndexKey name hc
  refine ⟨hkey, ?_, ?_⟩
  · intro heq
    have hmem : ',' ∈ normVariant1 name := heq ▸ hkey
    exact comma_not_mem_pyLower_removeAll (removeAll ' ' name) hmem
  · intro hw
    unfold normVariant2 normalizeIndexKey
    rw [removeAll_pyStrip_of_space_only name hw]

/-- Witness for the amended C10 at the name `"A ,B"`: its index key keeps the
comma, variant 1 misses it, variant 2 hits it. -/
theorem C10_index_keys_preserve_commas_witness :
    ',' ∈ normalizeIndexKey ("A ,B".toList)
    ∧ normVariant1 ("A ,B".toList) ≠ normalizeIndexKey ("A ,B".toList)
    ∧ normVariant2 ("A ,B".toList) = normalizeIndexKey ("A ,B".toList) :=
  ⟨(C10_index_keys_preserve_commas ("A ,B".toList) (by decide)).1,
   (C10_index_keys_preserve_commas ("A ,B".toList) (by decide)).2.1,
   (C10_index_keys_preserve_commas ("A ,B".toList) (by decide)).2.2 (by decide)⟩
